import Mathlib

/-
Verification of the blogger platform's Content Lifecycle and Trust Core.

Shallow embedding of the source:
  - app/routes.py      (login throttle, editor save, publish API)
  - app/models.py      (User, Post, Revision, BlockedIP, AnalyticsLog, slug assignment)
  - app/utils.py       (sanitize_input, parse_shortcodes, tag classification)

Machine integers do not occur; counters are Nat.  Timestamps are modelled as
Nat ticks.  Password hashing (werkzeug) is external to the repository: the
model stores the credential directly and check_password compares it, which is
observationally the hash comparison of the source.  The database session is
modelled by explicit record states threaded through each operation.
-/

/-! ## Login throttle model (app/routes.py login, app/models.py User/BlockedIP) -/

/-- User row from app/models.py: username (unique), credential,
failed_attempts counter, last_attempt timestamp. -/
structure UserRec where
  username : String
  password : String
  failed_attempts : Nat
  last_attempt : Option Nat
deriving DecidableEq, Repr

/-- models.py User.check_password: verify the supplied credential
(hash comparison delegated to werkzeug; modelled as equality). -/
def UserRec.check_password (u : UserRec) (p : String) : Bool :=
  u.password == p

/-- models.py User.is_blocked: failed_attempts >= 5. -/
def UserRec.is_blocked (u : UserRec) : Bool :=
  5 ≤ u.failed_attempts

/-- BlockedIP row from app/models.py: unique ip_address plus a reason. -/
structure BlockedIPRec where
  ip_address : String
  reason : String
deriving DecidableEq, Repr

/-- AnalyticsLog row from app/models.py restricted to the fields the login
flow writes: event_type and ip_address. -/
structure AnalyticsLogRec where
  event_type : String
  ip_address : String
deriving DecidableEq, Repr

/-- The slice of database state the login route touches. -/
structure AuthState where
  users : List UserRec
  blocked_ips : List BlockedIPRec
  logs : List AnalyticsLogRec
deriving DecidableEq, Repr

/-- The user-visible outcome of one request to the login route. -/
inductive LoginResult where
  | blockedResponse
  | success
  | lockout
  | invalidCredentials
deriving DecidableEq, Repr

/-- routes.py login (lines 20-89), one POST request: blocked-IP early return,
user lookup, credential check, counter reset on success, counter increment and
threshold escalation on failure, audit logging.  The blocked-IP branch of the
source returns before any log entry is written. -/
def login (st : AuthState) (username password ip : String) (now : Nat) :
    LoginResult × AuthState :=
  if st.blocked_ips.any (fun b => b.ip_address == ip) then
    (.blockedResponse, st)
  else
    match st.users.find? (fun u => u.username == username) with
    | some user =>
      if user.check_password password then
        let users := st.users.map (fun u =>
          if u.username == username then { u with failed_attempts := 0 } else u)
        (.success,
         { st with
             users := users
             logs := st.logs ++ [⟨"login_success", ip⟩] })
      else
        let fa := user.failed_attempts + 1
        let user2 : UserRec :=
          { user with failed_attempts := fa, last_attempt := some now }
        let users := st.users.map (fun u =>
          if u.username == username then user2 else u)
        if 5 ≤ fa then
          (.lockout,
           { users := users
             blocked_ips := st.blocked_ips ++
               [⟨ip, "Multiple failed login attempts for user " ++ username⟩]
             logs := st.logs ++ [⟨"login_failed", ip⟩] })
        else
          (.invalidCredentials,
           { st with
               users := users
               logs := st.logs ++ [⟨"login_failed", ip⟩] })
    | none =>
      (.invalidCredentials,
       { st with logs := st.logs ++ [⟨"login_failed", ip⟩] })

/-- One attempt submitted to the login route. -/
structure Attempt where
  username : String
  password : String
  ip : String
  now : Nat
deriving DecidableEq, Repr

/-- Replay a sequence of login attempts against the state. -/
def runAttempts (st : AuthState) : List Attempt → AuthState
  | [] => st
  | a :: rest => runAttempts (login st a.username a.password a.ip a.now).2 rest

/-- There is at most one BlockedIP row per address. -/
def UniqueBlocked (st : AuthState) : Prop :=
  (st.blocked_ips.map (fun b => b.ip_address)).Nodup

example :
    (login ⟨[⟨"alice", "pw", 4, none⟩], [], []⟩ "alice" "bad" "1.2.3.4" 7).1 =
      .lockout := by decide

example :
    (login ⟨[⟨"alice", "pw", 4, none⟩], [], []⟩ "alice" "pw" "1.2.3.4" 7).1 =
      .success := by decide

/-! ## Sanitizer (app/utils.py sanitize_input, delegating to bleach.clean)

bleach is an external dependency.  Its documented cleaning behaviour on
attribute-free markup is modelled here: tags whose name is on the allow-list
are kept verbatim, disallowed tags are removed (strip=True) while their text
content is preserved as text (bleach keeps the character data of stripped
elements, script elements included), and plain characters pass through.  The
allow-list substitution logic around the bleach call is translated verbatim
from utils.py lines 20-33. -/

/-- Read a run of ASCII letters (a candidate tag name); returns the run and
the remaining characters. -/
def parseName : List Char → List Char × List Char
  | [] => ([], [])
  | c :: rest =>
    if c.isAlpha then
      let p := parseName rest
      (c :: p.1, p.2)
    else ([], c :: rest)

theorem parseName_length (s : List Char) :
    (parseName s).2.length ≤ s.length := by
  induction s with
  | nil => simp [parseName]
  | cons c rest ih =>
    by_cases h : c.isAlpha
    · simp only [parseName, h, if_pos, List.length_cons]
      omega
    · simp [parseName, h]

/-- Fuel-driven scanner for the bleach.clean model: one unit of fuel is spent
per emitted-or-dropped token, so fuel equal to the input length always
suffices. -/
def cleanGo (allowed : List (List Char)) : Nat → List Char → List Char
  | 0, s => s
  | _ + 1, [] => []
  | fuel + 1, '<' :: '/' :: rest =>
    match parseName rest with
    | (c :: nm, '>' :: r2) =>
      if allowed.contains (c :: nm) then
        '<' :: '/' :: ((c :: nm) ++ '>' :: cleanGo allowed fuel r2)
      else cleanGo allowed fuel r2
    | _ => '<' :: cleanGo allowed fuel ('/' :: rest)
  | fuel + 1, '<' :: rest =>
    match parseName rest with
    | (c :: nm, '>' :: r2) =>
      if allowed.contains (c :: nm) then
        '<' :: ((c :: nm) ++ '>' :: cleanGo allowed fuel r2)
      else cleanGo allowed fuel r2
    | _ => '<' :: cleanGo allowed fuel rest
  | fuel + 1, c :: rest => c :: cleanGo allowed fuel rest

/-- utils.py sanitize_input: a None allow-list becomes [], and a falsy (empty)
allow-list is replaced by the default prose allow-list before bleach.clean is
invoked with strip=True. -/
def sanitize_input (text : String) (allowed_tags : Option (List String)) : String :=
  let tags0 := match allowed_tags with
    | none => []
    | some l => l
  let tags := if tags0 = [] then
      ["p", "br", "strong", "b", "em", "i", "u", "h1", "h2", "h3", "h4", "h5",
       "h6", "ul", "ol", "li", "blockquote", "code", "pre", "a", "img"]
    else tags0
  String.mk (cleanGo (tags.map String.data) text.data.length text.data)

example :
    sanitize_input "<script>alert(1)</script><p>ok</p>" (some ["p"]) =
      "alert(1)<p>ok</p>" := by decide

example :
    sanitize_input "<p>Some <em>emphasized</em> text</p>" (some []) =
      "<p>Some <em>emphasized</em> text</p>" := by decide

/-! ## Tag classifier (app/utils.py generate_tags_with_ai / generate_basic_tags) -/

/-- Result shape of classification: categories and tags. -/
structure TagResult where
  categories : List String
  tags : List String
deriving DecidableEq, Repr

/-- Peel a literal from the front of a character list; some r exactly when
the list is the literal followed by r. -/
def stripPre : List Char → List Char → Option (List Char)
  | [], s => some s
  | _ :: _, [] => none
  | p :: ps, c :: cs => if p == c then stripPre ps cs else none

/-- Python's substring containment (sub in hay) on character lists. -/
def hasSub : List Char → List Char → Bool
  | [], sub => (stripPre sub []).isSome
  | c :: rest, sub => (stripPre sub (c :: rest)).isSome || hasSub rest sub

/-- utils.py generate_basic_tags: keyword-rule fallback classification.
Lower-cases the content, maps fixed keyword sets to category labels in source
order (Technology, Tutorial, Opinion), defaults to [General, Blog]; filters a
fixed candidate tag list by substring membership, keeps at most five, defaults
to [blog, article, post]. -/
def generate_basic_tags (post_content : String) : TagResult :=
  let content_lower := post_content.data.map Char.toLower
  let hasw := fun (w : String) => hasSub content_lower w.data
  let cat1 := if ["code", "programming", "python", "javascript", "web"].any hasw
    then ["Technology"] else []
  let cat2 := if ["tutorial", "guide", "how to"].any hasw
    then ["Tutorial"] else []
  let cat3 := if ["opinion", "thoughts", "perspective"].any hasw
    then ["Opinion"] else []
  let cats0 := cat1 ++ cat2 ++ cat3
  let categories := if cats0 = [] then ["General", "Blog"] else cats0
  let common_words := ["web", "development", "python", "javascript", "tutorial",
    "guide", "tips", "tricks"]
  let tags0 := (common_words.filter hasw).take 5
  let tags := if tags0 = [] then ["blog", "article", "post"] else tags0
  ⟨categories, tags⟩

/-- Outcome of the external Gemini call in utils.py generate_tags_with_ai:
no API key configured, a transport or API error (the broad except branch), or
a raw response text. -/
inductive AIOutcome where
  | noApiKey
  | transportError
  | response (raw : String)

/-- utils.py generate_tags_with_ai: the AI path.  The external pieces (genai
transport, the JSON-object scan of the raw response and json.loads) are the
collaborators outcome and parseJson; every failure branch of the source routes
to generate_basic_tags. -/
def generate_tags_with_ai (post_content : String) (outcome : AIOutcome)
    (parseJson : String → Option TagResult) : TagResult :=
  match outcome with
  | .noApiKey => generate_basic_tags post_content
  | .transportError => generate_basic_tags post_content
  | .response raw =>
    match parseJson raw with
    | some r => r
    | none => generate_basic_tags post_content

/-- The AI classification path failed: missing credentials, transport error,
or no well-formed JSON object in the response. -/
def aiFailed (outcome : AIOutcome) (parseJson : String → Option TagResult) : Bool :=
  match outcome with
  | .noApiKey => true
  | .transportError => true
  | .response raw => (parseJson raw).isNone

example : generate_basic_tags "Some random text without keywords" =
    ⟨["General", "Blog"], ["blog", "article", "post"]⟩ := by decide

example : generate_basic_tags "Python Flask web development tutorial" =
    ⟨["Technology", "Tutorial"], ["web", "development", "python", "tutorial"]⟩ := by
  decide

/-! ## Publishing pipeline (app/routes.py editor and publish, app/models.py
Post/Revision) -/

/-- Post row from app/models.py restricted to the fields the publish flow
touches. -/
structure PostRec where
  id : Nat
  title : String
  content : String
  status : String
  categories : List String
  tags : List String
  published_at : Option Nat
  updated_at : Nat
deriving DecidableEq, Repr

/-- Revision row from app/models.py: owning post, content snapshot,
timestamp. -/
structure RevisionRec where
  post_id : Nat
  content : String
  timestamp : Nat
deriving DecidableEq, Repr

/-- The slice of database state the publish flow touches. -/
structure BlogState where
  posts : List PostRec
  revisions : List RevisionRec
deriving DecidableEq, Repr

/-- routes.py editor (lines 182-232), the update branch for an existing post:
sanitize the title with the inline-emphasis allow-list, overwrite content,
status and updated_at; then, only when the submitted status is published and
published_at is still unset, set published_at, store the classifier result and
append one Revision.  ai is the classifier outcome for this request. -/
def editorSave (st : BlogState) (post_id : Nat) (title content status : String)
    (now : Nat) (ai : TagResult) : BlogState :=
  match st.posts.find? (fun p => p.id == post_id) with
  | none => st
  | some post =>
    let post1 : PostRec :=
      { post with
          title := sanitize_input title (some ["b", "i", "u", "strong", "em"])
          content := content
          status := status
          updated_at := now }
    if status == "published" && post1.published_at == none then
      let post2 : PostRec :=
        { post1 with
            published_at := some now
            categories := ai.categories
            tags := ai.tags }
      { posts := st.posts.map (fun p => if p.id == post_id then post2 else p)
        revisions := st.revisions ++ [⟨post2.id, post2.content, now⟩] }
    else
      { posts := st.posts.map (fun p => if p.id == post_id then post1 else p)
        revisions := st.revisions }

/-- routes.py publish (lines 266-294): set status to published; if
published_at is unset, set it and store the classifier result; then append one
Revision unconditionally.  none models the 404 for a missing post. -/
def apiPublish (st : BlogState) (post_id : Nat) (now : Nat) (ai : TagResult) :
    Option BlogState :=
  match st.posts.find? (fun p => p.id == post_id) with
  | none => none
  | some post =>
    let post1 : PostRec := { post with status := "published" }
    let post2 : PostRec :=
      if post1.published_at == none then
        { post1 with
            published_at := some now
            categories := ai.categories
            tags := ai.tags }
      else post1
    some
      { posts := st.posts.map (fun p => if p.id == post_id then post2 else p)
        revisions := st.revisions ++ [⟨post2.id, post2.content, now⟩] }

/-! ## Shortcode expander (app/utils.py parse_shortcodes)

Each of the four re.sub passes is modelled by a left-to-right scanner that at
every position tries the anchored pattern [kind id=<digits>] and on a match
emits the replacement markup and resumes after the match, exactly the
semantics of re.sub with these patterns (the digit run is maximal because a
closing bracket must follow it). -/

/-- Take the leading run of decimal digits. -/
def takeDigits : List Char → List Char × List Char
  | [] => ([], [])
  | c :: rest =>
    if c.isDigit then
      let p := takeDigits rest
      (c :: p.1, p.2)
    else ([], c :: rest)

/-- The literal opening of a shortcode of the given kind: [kind id= . -/
def scLit (kw : List Char) : List Char :=
  '[' :: kw ++ [' ', 'i', 'd', '=']

/-- Try the pattern [kw id=<digits>] at the head of s; on success return the
digit group and the characters after the closing bracket. -/
def matchShort (kw : List Char) (s : List Char) : Option (List Char × List Char) :=
  match stripPre (scLit kw) s with
  | none => none
  | some rest =>
    match takeDigits rest with
    | (d :: ds, ']' :: r2) => some (d :: ds, r2)
    | _ => none

/-- The replacement markup emitted for a match of the given kind:
a div with class interactive-kind and a data-kind-id attribute. -/
def scRepl (kw ds : List Char) : List Char :=
  ("<div class=\"interactive-").data ++ kw ++ ("\" data-").data ++ kw ++
    ("-id=\"").data ++ ds ++ ("\"></div>").data

theorem stripPre_some {p s r : List Char} (h : stripPre p s = some r) :
    s = p ++ r := by
  induction p generalizing s with
  | nil =>
    simp only [stripPre, Option.some.injEq] at h
    simp [h]
  | cons a ps ih =>
    match s with
    | [] => simp [stripPre] at h
    | c :: cs =>
      simp only [stripPre] at h
      by_cases hac : a == c
      · rw [if_pos hac] at h
        have hcs := ih h
        have hae : a = c := by simpa using hac
        simp [hae, hcs]
      · rw [if_neg hac] at h
        exact absurd h (by simp)

theorem takeDigits_split (s : List Char) :
    s = (takeDigits s).1 ++ (takeDigits s).2 := by
  induction s with
  | nil => simp [takeDigits]
  | cons c cs ih =>
    by_cases hc : c.isDigit
    · simp only [takeDigits, hc, if_pos, List.cons_append]
      exact congrArg (c :: ·) ih
    · simp [takeDigits, hc]

theorem takeDigits_digits (s : List Char) :
    ∀ c ∈ (takeDigits s).1, c.isDigit = true := by
  induction s with
  | nil => simp [takeDigits]
  | cons c cs ih =>
    by_cases hc : c.isDigit
    · simp only [takeDigits, hc, if_pos]
      intro d hd
      rcases List.mem_cons.mp hd with h1 | h2
      · rw [h1]; exact hc
      · exact ih d h2
    · simp [takeDigits, hc]

theorem matchShort_some {kw s ds after : List Char}
    (h : matchShort kw s = some (ds, after)) :
    s = scLit kw ++ ds ++ ']' :: after ∧ ds ≠ [] ∧
      ∀ c ∈ ds, c.isDigit = true := by
  unfold matchShort at h
  split at h
  · exact absurd h (by simp)
  · rename_i rest hp
    split at h
    · rename_i d dtl r2 heq
      have hs := stripPre_some hp
      have hr := takeDigits_split rest
      have hds := takeDigits_digits rest
      rw [heq] at hr hds
      simp only [Option.some.injEq, Prod.mk.injEq] at h
      refine ⟨?_, ?_, ?_⟩
      · rw [hs, hr, ← h.1, ← h.2]
        simp
      · rw [← h.1]; simp
      · rw [← h.1]; exact hds
    · exact absurd h (by simp)

/-- A shortcode match consumes at least the opening bracket, the keyword,
the id=, one digit and the closing bracket. -/
theorem matchShort_shrinks {kw s ds after : List Char}
    (h : matchShort kw s = some (ds, after)) :
    after.length < s.length := by
  have hd := (matchShort_some h).1
  rw [hd]
  simp only [scLit, List.length_append, List.length_cons]
  omega

/-- One re.sub pass for the given kind: scan left to right, replace every
match, leave everything else untouched. -/
def scSub (kw : List Char) (s : List Char) : List Char :=
  match s with
  | [] => []
  | c :: rest =>
    match hm : matchShort kw (c :: rest) with
    | some (ds, after) => scRepl kw ds ++ scSub kw after
    | none => c :: scSub kw rest
termination_by s.length
decreasing_by
  · exact matchShort_shrinks hm
  · simp

/-- utils.py parse_shortcodes: the four passes in source order
(quiz, chart, video, pdf). -/
def parse_shortcodes (content : String) : String :=
  let c1 := scSub ("quiz".data) content.data
  let c2 := scSub ("chart".data) c1
  let c3 := scSub ("video".data) c2
  let c4 := scSub ("pdf".data) c3
  String.mk c4

/-- No position of s matches the shortcode pattern of the given kind. -/
def noMatch (kw : List Char) : List Char → Bool
  | [] => true
  | c :: rest => (matchShort kw (c :: rest)).isNone && noMatch kw rest

/-! ## Slug assigner (app/models.py Post.generate_slug, python-slugify) -/

/-- Collapse each run of hyphens to a single hyphen. -/
def squashDashes : List Char → List Char
  | [] => []
  | [c] => [c]
  | c :: d :: rest =>
    if c == '-' && d == '-' then squashDashes (d :: rest)
    else c :: squashDashes (d :: rest)

/-- Model of slugify (the python-slugify dependency) on ASCII titles:
lower-case, replace every non-alphanumeric character by a hyphen, collapse
hyphen runs, trim leading and trailing hyphens. -/
def slugify (s : String) : String :=
  let mapped := s.data.map (fun c => if c.isAlphanum then c.toLower else '-')
  let squashed := squashDashes mapped
  let trimmed :=
    ((squashed.dropWhile (fun c => c == '-')).reverse.dropWhile
      (fun c => c == '-')).reverse
  String.mk trimmed

/-- models.py Post.generate_slug, the while loop: starting from the base
candidate with counter 1, as long as the oracle reports the current candidate
taken, move to base-counter and increment the counter.  The loop is totalized
by fuel; the source loop runs unboundedly until a free candidate appears. -/
def slugLoop (existsFn : String → Bool) (base : String) :
    Nat → Nat → String → String
  | 0, _, slug => slug
  | fuel + 1, counter, slug =>
    if existsFn slug then
      slugLoop existsFn base fuel (counter + 1) (base ++ "-" ++ toString counter)
    else slug

/-- models.py Post.generate_slug for a post without a slug: derive the base
candidate from the title and search base, base-1, base-2, ... -/
def generate_slug (existsFn : String → Bool) (title : String) (fuel : Nat) :
    String :=
  let base := slugify title
  slugLoop existsFn base fuel 1 base

/-- The n-th candidate of the search sequence: base, base-1, base-2, ... -/
def slugCandidate (base : String) : Nat → String
  | 0 => base
  | n + 1 => base ++ "-" ++ toString (n + 1)

example : slugify "Hello, World!" = "hello-world" := by decide

example :
    generate_slug (fun s => s == "hello-world") "Hello  World" 10 =
      "hello-world-1" := by decide

/-! ## Shortcode expander lemmas -/

theorem scSub_nil (kw : List Char) : scSub kw [] = [] := by
  simp [scSub]

theorem scSub_cons_none {kw : List Char} {c : Char} {rest : List Char}
    (h : matchShort kw (c :: rest) = none) :
    scSub kw (c :: rest) = c :: scSub kw rest := by
  rw [scSub]
  split
  · rename_i ds after hm
    rw [h] at hm
    exact absurd hm (by simp)
  · rfl

theorem scSub_cons_some {kw : List Char} {c : Char} {rest ds after : List Char}
    (h : matchShort kw (c :: rest) = some (ds, after)) :
    scSub kw (c :: rest) = scRepl kw ds ++ scSub kw after := by
  rw [scSub]
  split
  · rename_i ds2 after2 hm
    rw [h] at hm
    simp only [Option.some.injEq, Prod.mk.injEq] at hm
    rw [hm.1, hm.2]
  · rename_i hm
    rw [h] at hm
    exact absurd hm (by simp)

/-- The pattern is anchored on an opening bracket: any other head fails. -/
theorem matchShort_none_head {kw : List Char} {c : Char} {s : List Char}
    (h : c ≠ '[') : matchShort kw (c :: s) = none := by
  unfold matchShort
  have hb : ('[' == c) = false := by
    simp only [beq_eq_false_iff_ne, ne_eq]
    exact fun he => h he.symm
  simp [scLit, stripPre, hb]

theorem stripPre_append (p r : List Char) : stripPre p (p ++ r) = some r := by
  induction p with
  | nil => simp [stripPre]
  | cons a ps ih => simp [stripPre, ih]

theorem takeDigits_exact {ds tail : List Char}
    (hds : ∀ c ∈ ds, c.isDigit = true) :
    takeDigits (ds ++ ']' :: tail) = (ds, ']' :: tail) := by
  induction ds with
  | nil => simp [takeDigits]
  | cons d dtl ih =>
    have hd : d.isDigit = true := hds d (List.mem_cons_self d dtl)
    have ihh := ih (fun c hc => hds c (List.mem_cons_of_mem d hc))
    simp [takeDigits, hd, ihh]

/-- An exactly shaped occurrence at the head of the input matches. -/
theorem matchShort_of_shape {kw ds tail : List Char} (hne : ds ≠ [])
    (hds : ∀ c ∈ ds, c.isDigit = true) :
    matchShort kw (scLit kw ++ ds ++ ']' :: tail) = some (ds, tail) := by
  match ds, hne with
  | d :: dtl, _ =>
    have h1 : scLit kw ++ (d :: dtl) ++ ']' :: tail =
        scLit kw ++ ((d :: dtl) ++ ']' :: tail) := by
      simp [List.append_assoc]
    have h2 := stripPre_append (scLit kw) ((d :: dtl) ++ ']' :: tail)
    have h3 := @takeDigits_exact _ tail hds
    unfold matchShort
    rw [h1]
    simp only [h2, h3]

/-- Every replacement starts with an angle bracket. -/
theorem scRepl_cons (kw ds : List Char) :
    scRepl kw ds = '<' :: (("div class=\"interactive-").data ++ kw ++
      ("\" data-").data ++ kw ++ ("-id=\"").data ++ ds ++
      ("\"></div>").data) := rfl

theorem digit_ne_lt {c : Char} (h : c.isDigit = true) : c ≠ '<' := by
  intro he
  rw [he] at h
  exact absurd h (by decide)

theorem digit_ne_br {c : Char} (h : c.isDigit = true) : c ≠ '[' := by
  intro he
  rw [he] at h
  exact absurd h (by decide)

/-- Replacements contain no opening square bracket (the keyword is
bracket-free and the id group is digits). -/
theorem scRepl_no_bracket {kw ds : List Char} (hkw : ∀ c ∈ kw, c ≠ '[')
    (hds : ∀ c ∈ ds, c.isDigit = true) : ∀ c ∈ scRepl kw ds, c ≠ '[' := by
  have hA : ∀ c ∈ ("<div class=\"interactive-").data, c ≠ '[' := by decide
  have hB : ∀ c ∈ ("\" data-").data, c ≠ '[' := by decide
  have hC : ∀ c ∈ ("-id=\"").data, c ≠ '[' := by decide
  have hD : ∀ c ∈ ("\"></div>").data, c ≠ '[' := by decide
  intro c hc
  unfold scRepl at hc
  rcases List.mem_append.mp hc with h | h
  · rcases List.mem_append.mp h with h | h
    · rcases List.mem_append.mp h with h | h
      · rcases List.mem_append.mp h with h | h
        · rcases List.mem_append.mp h with h | h
          · rcases List.mem_append.mp h with h | h
            · exact hA c h
            · exact hkw c h
          · exact hB c h
        · exact hkw c h
      · exact hC c h
    · exact digit_ne_br (hds c h)
  · exact hD c h

/-- A bracket-free segment before ys contributes no match position. -/
theorem noMatch_append_left {kw xs ys : List Char}
    (hxs : ∀ c ∈ xs, c ≠ '[') :
    noMatch kw (xs ++ ys) = noMatch kw ys := by
  induction xs with
  | nil => rfl
  | cons c xtl ih =>
    have hc : c ≠ '[' := hxs c (List.mem_cons_self c xtl)
    have ihh := ih (fun d hd => hxs d (List.mem_cons_of_mem c hd))
    simp [noMatch, matchShort_none_head hc, ihh]

theorem noMatch_suffix {kw : List Char} :
    ∀ {x y : List Char}, noMatch kw (x ++ y) = true → noMatch kw y = true := by
  intro x
  induction x with
  | nil => intro y h; exact h
  | cons a xtl ih =>
    intro y h
    simp only [List.cons_append, noMatch, Bool.and_eq_true] at h
    exact ih h.2

/-- If a clean target string (no angle bracket) heads the output of a
substitution pass, it already headed the input: replacements begin with an
angle bracket, so such a segment is made of untouched characters. -/
theorem stripPre_scSub (kw2 : List Char) :
    ∀ n (t s : List Char), (∀ c ∈ t, c ≠ '<') → s.length ≤ n →
      (stripPre t (scSub kw2 s)).isSome = true →
      (stripPre t s).isSome = true := by
  intro n
  induction n with
  | zero =>
    intro t s _ hlen h
    have hs : s = [] := List.eq_nil_of_length_eq_zero (Nat.le_zero.mp hlen)
    rw [hs] at h ⊢
    rw [scSub_nil] at h
    exact h
  | succ n ih =>
    intro t s ht hlen h
    match s with
    | [] =>
      rw [scSub_nil] at h
      exact h
    | c :: rest =>
      cases hm : matchShort kw2 (c :: rest) with
      | some p =>
        match p, hm with
        | (ds, after), hm =>
          rw [scSub_cons_some hm] at h
          match t, ht with
          | [], _ => simp [stripPre]
          | t0 :: ttl, ht =>
            rw [scRepl_cons] at h
            simp only [List.cons_append, stripPre] at h
            have ht0 : t0 ≠ '<' := ht t0 (List.mem_cons_self t0 ttl)
            have hb : (t0 == '<') = false := by
              simp only [beq_eq_false_iff_ne, ne_eq]
              exact ht0
            rw [if_neg (by simp [hb])] at h
            exact absurd h (by simp)
      | none =>
        rw [scSub_cons_none hm] at h
        match t, ht with
        | [], _ => simp [stripPre]
        | t0 :: ttl, ht =>
          simp only [stripPre] at h ⊢
          by_cases he : t0 == c
          · rw [if_pos he] at h
            rw [if_pos he]
            have hlen2 : rest.length ≤ n := by
              simp only [List.length_cons] at hlen
              omega
            exact ih ttl rest (fun d hd => ht d (List.mem_cons_of_mem t0 hd))
              hlen2 h
          · rw [if_neg he] at h
            exact absurd h (by simp)

/-- A position that did not match before a pass still does not match after
it: a match in the output would be made of untouched characters, hence would
have been a match in the input. -/
theorem matchShort_scSub_none {kw kw2 : List Char}
    (hkw : ∀ c ∈ kw, c ≠ '<') {c : Char} {r : List Char}
    (h : matchShort kw (c :: r) = none) :
    matchShort kw (c :: scSub kw2 r) = none := by
  cases hm : matchShort kw (c :: scSub kw2 r) with
  | none => rfl
  | some p =>
    exfalso
    match p, hm with
    | (ds, after), hm =>
      obtain ⟨hshape, hne, hds⟩ := matchShort_some hm
      have hlit : scLit kw ++ ds ++ ']' :: after =
          '[' :: ((kw ++ [' ', 'i', 'd', '=']) ++ ds ++ ']' :: after) := by
        simp [scLit]
      rw [hlit] at hshape
      have hc : c = '[' := (List.cons.injEq _ _ _ _).mp hshape |>.1
      have hrest : scSub kw2 r =
          (kw ++ [' ', 'i', 'd', '=']) ++ ds ++ ']' :: after :=
        (List.cons.injEq _ _ _ _).mp hshape |>.2
      set t : List Char := (kw ++ [' ', 'i', 'd', '=']) ++ ds ++ [']'] with hdt
      have hmid : ∀ ch ∈ ([' ', 'i', 'd', '='] : List Char), ch ≠ '<' := by
        decide
      have hcl : ∀ ch ∈ ([']'] : List Char), ch ≠ '<' := by decide
      have ht : ∀ ch ∈ t, ch ≠ '<' := by
        rw [hdt]
        intro ch hch
        rcases List.mem_append.mp hch with hch | hch
        · rcases List.mem_append.mp hch with hch | hch
          · rcases List.mem_append.mp hch with hch | hch
            · exact hkw ch hch
            · exact hmid ch hch
          · exact digit_ne_lt (hds ch hch)
        · exact hcl ch hch
      have hta : t ++ after = (kw ++ [' ', 'i', 'd', '=']) ++ ds ++ ']' :: after := by
        rw [hdt]
        simp [List.append_assoc]
      have hsome : (stripPre t (scSub kw2 r)).isSome = true := by
        rw [hrest, ← hta, stripPre_append]
        rfl
      have hpre := stripPre_scSub kw2 r.length t r ht (Nat.le_refl _) hsome
      rw [Option.isSome_iff_exists] at hpre
      obtain ⟨r2, hr2⟩ := hpre
      have hr := stripPre_some hr2
      have hgoal : '[' :: (t ++ r2) = scLit kw ++ ds ++ ']' :: r2 := by
        rw [hdt]
        simp [scLit, List.append_assoc]
      have hmm : matchShort kw (c :: r) = some (ds, r2) := by
        rw [hc, hr, hgoal]
        exact matchShort_of_shape hne hds
      rw [h] at hmm
      exact absurd hmm (by simp)

/-- After a pass for a kind, no position matches that kind any more. -/
theorem noMatch_scSub_self (kw : List Char) (h1 : ∀ c ∈ kw, c ≠ '<')
    (h2 : ∀ c ∈ kw, c ≠ '[') :
    ∀ n (s : List Char), s.length ≤ n → noMatch kw (scSub kw s) = true := by
  intro n
  induction n with
  | zero =>
    intro s hlen
    rw [List.eq_nil_of_length_eq_zero (Nat.le_zero.mp hlen), scSub_nil]
    rfl
  | succ n ih =>
    intro s hlen
    match s with
    | [] => rw [scSub_nil]; rfl
    | c :: rest =>
      cases hm : matchShort kw (c :: rest) with
      | some p =>
        match p, hm with
        | (ds, after), hm =>
          rw [scSub_cons_some hm]
          obtain ⟨hshape, hne, hds⟩ := matchShort_some hm
          have hnb := scRepl_no_bracket h2 hds
          rw [noMatch_append_left hnb]
          have hafter : after.length ≤ n := by
            have hlt := matchShort_shrinks hm
            simp only [List.length_cons] at hlt hlen
            omega
          exact ih after hafter
      | none =>
        rw [scSub_cons_none hm]
        have hrest : rest.length ≤ n := by
          simp only [List.length_cons] at hlen
          omega
        have hnone := @matchShort_scSub_none kw kw h1 c rest hm
        simp only [noMatch, hnone, Option.isNone_none, Bool.true_and]
        exact ih rest hrest

/-- A pass for one kind preserves the absence of matches of another kind. -/
theorem noMatch_scSub_other {kw kw2 : List Char} (h1 : ∀ c ∈ kw, c ≠ '<')
    (h2 : ∀ c ∈ kw2, c ≠ '[') :
    ∀ n (s : List Char), s.length ≤ n → noMatch kw s = true →
      noMatch kw (scSub kw2 s) = true := by
  intro n
  induction n with
  | zero =>
    intro s hlen _
    rw [List.eq_nil_of_length_eq_zero (Nat.le_zero.mp hlen), scSub_nil]
    rfl
  | succ n ih =>
    intro s hlen hnm
    match s with
    | [] => rw [scSub_nil]; rfl
    | c :: rest =>
      cases hm : matchShort kw2 (c :: rest) with
      | some p =>
        match p, hm with
        | (ds, after), hm =>
          rw [scSub_cons_some hm]
          obtain ⟨hshape, hne, hds⟩ := matchShort_some hm
          have hnb := scRepl_no_bracket h2 hds
          rw [noMatch_append_left hnb]
          have hsuf : noMatch kw after = true := by
            have hshape2 : c :: rest = (scLit kw2 ++ ds ++ [']']) ++ after := by
              rw [hshape]
              simp [List.append_assoc]
            rw [hshape2] at hnm
            exact noMatch_suffix hnm
          have hafter : after.length ≤ n := by
            have hlt := matchShort_shrinks hm
            simp only [List.length_cons] at hlt hlen
            omega
          exact ih after hafter hsuf
      | none =>
        rw [scSub_cons_none hm]
        simp only [noMatch, Bool.and_eq_true] at hnm
        have hmn : matchShort kw (c :: rest) = none :=
          Option.isNone_iff_eq_none.mp hnm.1
        have hnone := @matchShort_scSub_none kw kw2 h1 c rest hmn
        simp only [noMatch, hnone, Option.isNone_none, Bool.true_and]
        have hrest : rest.length ≤ n := by
          simp only [List.length_cons] at hlen
          omega
        exact ih rest hrest hnm.2

/-- A pass is the identity on match-free input. -/
theorem scSub_noMatch_id {kw : List Char} :
    ∀ {s : List Char}, noMatch kw s = true → scSub kw s = s := by
  intro s
  induction s with
  | nil => intro _; exact scSub_nil kw
  | cons c rest ih =>
    intro h
    simp only [noMatch, Bool.and_eq_true] at h
    rw [scSub_cons_none (Option.isNone_iff_eq_none.mp h.1), ih h.2]

/-- The input contains no bracket directive of the shortcode grammar for any
of the four kinds. -/
def noShortcodes (s : List Char) : Bool :=
  noMatch ("quiz".data) s && noMatch ("chart".data) s &&
    noMatch ("video".data) s && noMatch ("pdf".data) s

/-- The output of the expander never contains a bracket directive of the
grammar: replacements carry no opening bracket and untouched text was
scanned. -/
theorem noShortcodes_parse (content : String) :
    noShortcodes (parse_shortcodes content).data = true := by
  have hq1 : ∀ c ∈ ("quiz".data), c ≠ '<' := by decide
  have hq2 : ∀ c ∈ ("quiz".data), c ≠ '[' := by decide
  have hc1 : ∀ c ∈ ("chart".data), c ≠ '<' := by decide
  have hc2 : ∀ c ∈ ("chart".data), c ≠ '[' := by decide
  have hv1 : ∀ c ∈ ("video".data), c ≠ '<' := by decide
  have hv2 : ∀ c ∈ ("video".data), c ≠ '[' := by decide
  have hp1 : ∀ c ∈ ("pdf".data), c ≠ '<' := by decide
  have hp2 : ∀ c ∈ ("pdf".data), c ≠ '[' := by decide
  have hrw : (parse_shortcodes content).data =
      scSub ("pdf".data) (scSub ("video".data) (scSub ("chart".data)
        (scSub ("quiz".data) content.data))) := rfl
  unfold noShortcodes
  rw [hrw]
  set l0 := content.data with hl0
  set l1 := scSub ("quiz".data) l0 with hl1
  set l2 := scSub ("chart".data) l1 with hl2
  set l3 := scSub ("video".data) l2 with hl3
  have nq1 : noMatch ("quiz".data) l1 = true :=
    noMatch_scSub_self _ hq1 hq2 l0.length l0 (Nat.le_refl _)
  have nq2 : noMatch ("quiz".data) l2 = true :=
    noMatch_scSub_other hq1 hc2 l1.length l1 (Nat.le_refl _) nq1
  have nq3 : noMatch ("quiz".data) l3 = true :=
    noMatch_scSub_other hq1 hv2 l2.length l2 (Nat.le_refl _) nq2
  have nq4 : noMatch ("quiz".data) (scSub ("pdf".data) l3) = true :=
    noMatch_scSub_other hq1 hp2 l3.length l3 (Nat.le_refl _) nq3
  have nc2 : noMatch ("chart".data) l2 = true :=
    noMatch_scSub_self _ hc1 hc2 l1.length l1 (Nat.le_refl _)
  have nc3 : noMatch ("chart".data) l3 = true :=
    noMatch_scSub_other hc1 hv2 l2.length l2 (Nat.le_refl _) nc2
  have nc4 : noMatch ("chart".data) (scSub ("pdf".data) l3) = true :=
    noMatch_scSub_other hc1 hp2 l3.length l3 (Nat.le_refl _) nc3
  have nv3 : noMatch ("video".data) l3 = true :=
    noMatch_scSub_self _ hv1 hv2 l2.length l2 (Nat.le_refl _)
  have nv4 : noMatch ("video".data) (scSub ("pdf".data) l3) = true :=
    noMatch_scSub_other hv1 hp2 l3.length l3 (Nat.le_refl _) nv3
  have np4 : noMatch ("pdf".data) (scSub ("pdf".data) l3) = true :=
    noMatch_scSub_self _ hp1 hp2 l3.length l3 (Nat.le_refl _)
  simp [nq4, nc4, nv4, np4]

/-- The expander leaves directive-free content unchanged. -/
theorem parse_eq_of_noShortcodes {content : String}
    (h : noShortcodes content.data = true) : parse_shortcodes content = content := by
  unfold noShortcodes at h
  simp only [Bool.and_eq_true] at h
  have hun : parse_shortcodes content =
      String.mk (scSub ("pdf".data) (scSub ("video".data) (scSub ("chart".data)
        (scSub ("quiz".data) content.data)))) := rfl
  rw [hun, scSub_noMatch_id h.1.1.1, scSub_noMatch_id h.1.1.2,
    scSub_noMatch_id h.1.2, scSub_noMatch_id h.2]
/-! ## Login throttle lemmas -/

theorem login_blocked {st : AuthState} {u p ip : String} {now : Nat}
    (h : st.blocked_ips.any (fun b => b.ip_address == ip) = true) :
    login st u p ip now = (.blockedResponse, st) := by
  simp [login, h]

theorem login_success_eq {st : AuthState} {u p ip : String} {now : Nat}
    {user : UserRec}
    (hb : st.blocked_ips.any (fun b => b.ip_address == ip) = false)
    (hf : st.users.find? (fun x => x.username == u) = some user)
    (hc : user.check_password p = true) :
    login st u p ip now =
      (.success,
       { st with
           users := st.users.map (fun x =>
             if x.username == u then { x with failed_attempts := 0 } else x)
           logs := st.logs ++ [⟨"login_success", ip⟩] }) := by
  simp [login, hb, hf, hc]

theorem login_fail_lockout {st : AuthState} {u p ip : String} {now : Nat}
    {user : UserRec}
    (hb : st.blocked_ips.any (fun b => b.ip_address == ip) = false)
    (hf : st.users.find? (fun x => x.username == u) = some user)
    (hc : user.check_password p = false)
    (hth : 5 ≤ user.failed_attempts + 1) :
    login st u p ip now =
      (.lockout,
       { users := st.users.map (fun x =>
           if x.username == u then
             { user with failed_attempts := user.failed_attempts + 1,
                         last_attempt := some now }
           else x)
         blocked_ips := st.blocked_ips ++
           [⟨ip, "Multiple failed login attempts for user " ++ u⟩]
         logs := st.logs ++ [⟨"login_failed", ip⟩] }) := by
  simp [login, hb, hf, hc, hth]

theorem login_fail_under {st : AuthState} {u p ip : String} {now : Nat}
    {user : UserRec}
    (hb : st.blocked_ips.any (fun b => b.ip_address == ip) = false)
    (hf : st.users.find? (fun x => x.username == u) = some user)
    (hc : user.check_password p = false)
    (hth : user.failed_attempts + 1 < 5) :
    login st u p ip now =
      (.invalidCredentials,
       { st with
           users := st.users.map (fun x =>
             if x.username == u then
               { user with failed_attempts := user.failed_attempts + 1,
                           last_attempt := some now }
             else x)
           logs := st.logs ++ [⟨"login_failed", ip⟩] }) := by
  have hth2 : ¬ (5 ≤ user.failed_attempts + 1) := by omega
  simp [login, hb, hf, hc, hth2]

theorem login_unknown {st : AuthState} {u p ip : String} {now : Nat}
    (hb : st.blocked_ips.any (fun b => b.ip_address == ip) = false)
    (hf : st.users.find? (fun x => x.username == u) = none) :
    login st u p ip now =
      (.invalidCredentials,
       { st with logs := st.logs ++ [⟨"login_failed", ip⟩] }) := by
  simp [login, hb, hf]

/-- Any address already carrying a BlockedIP row fails the entry check. -/
theorem any_eq_false_not_mem {st : AuthState} {ip : String}
    (h : st.blocked_ips.any (fun b => b.ip_address == ip) = false) :
    ip ∉ st.blocked_ips.map (fun b => b.ip_address) := by
  intro hmem
  rw [List.mem_map] at hmem
  obtain ⟨b, hb, hbe⟩ := hmem
  rw [List.any_eq_false] at h
  have := h b hb
  simp [hbe] at this

/-- One login step preserves uniqueness of BlockedIP addresses: a new row is
only inserted after the entry check found none for the address. -/
theorem login_preserves_unique (st : AuthState) (u p ip : String) (now : Nat)
    (h : UniqueBlocked st) : UniqueBlocked (login st u p ip now).2 := by
  cases hb : st.blocked_ips.any (fun b => b.ip_address == ip) with
  | true => rw [login_blocked hb]; exact h
  | false =>
    cases hf : st.users.find? (fun x => x.username == u) with
    | none => rw [login_unknown hb hf]; exact h
    | some user =>
      cases hc : user.check_password p with
      | true => rw [login_success_eq hb hf hc]; exact h
      | false =>
        by_cases hth : 5 ≤ user.failed_attempts + 1
        · rw [login_fail_lockout hb hf hc hth]
          unfold UniqueBlocked at h ⊢
          simp only [List.map_append, List.map_cons, List.map_nil]
          rw [List.nodup_append]
          refine ⟨h, List.nodup_singleton _, ?_⟩
          intro a ha hamem
          have hips : a = ip := by
            simp only [List.mem_singleton] at hamem
            exact hamem
          rw [hips] at ha
          exact any_eq_false_not_mem hb ha
        · have hth2 : user.failed_attempts + 1 < 5 := by omega
          rw [login_fail_under hb hf hc hth2]
          exact h

/-- Replaying any sequence of attempts preserves the uniqueness invariant. -/
theorem runAttempts_preserves_unique (st : AuthState) (attempts : List Attempt)
    (h : UniqueBlocked st) : UniqueBlocked (runAttempts st attempts) := by
  induction attempts generalizing st with
  | nil => exact h
  | cons a rest ih =>
    exact ih _ (login_preserves_unique st a.username a.password a.ip a.now h)

/-! ## Slug assigner lemmas -/

theorem slugLoop_spec (f : String → Bool) (base : String) (n : Nat)
    (hfree : f (slugCandidate base n) = false) :
    ∀ fuel k, (∀ i, k ≤ i → i < n → f (slugCandidate base i) = true) →
      k ≤ n → n - k < fuel →
      slugLoop f base fuel (k + 1) (slugCandidate base k) = slugCandidate base n := by
  intro fuel
  induction fuel with
  | zero => intro k _ _ hlt; omega
  | succ fuel ih =>
    intro k htaken hkn hlt
    by_cases hkeq : k = n
    · rw [hkeq]
      simp [slugLoop, hfree]
    · have hklt : k < n := by omega
      have htk : f (slugCandidate base k) = true := htaken k (Nat.le_refl _) hklt
      simp only [slugLoop, htk, if_pos]
      have hstep : base ++ "-" ++ toString (k + 1) = slugCandidate base (k + 1) := rfl
      rw [hstep]
      exact ih (k + 1) (fun i hi1 hi2 => htaken i (by omega) hi2) (by omega) (by omega)

/-- The slug search returns the first candidate the oracle reports free. -/
theorem generate_slug_spec (f : String → Bool) (title : String) (n fuel : Nat)
    (htaken : ∀ i, i < n → f (slugCandidate (slugify title) i) = true)
    (hfree : f (slugCandidate (slugify title) n) = false)
    (hfuel : n < fuel) :
    generate_slug f title fuel = slugCandidate (slugify title) n := by
  unfold generate_slug
  have h0 : slugCandidate (slugify title) 0 = slugify title := rfl
  rw [← h0]
  exact slugLoop_spec f (slugify title) n hfree fuel 0
    (fun i _ hi => htaken i hi) (Nat.zero_le _) (by omega)

theorem slugCandidate_one (base : String) :
    slugCandidate base 1 = base ++ "-1" := by
  have h1 : slugCandidate base 1 = base ++ "-" ++ toString 1 := rfl
  rw [h1, String.append_assoc]
  rfl

/-! ## Publishing pipeline lemmas -/

theorem editorSave_first_publish {st : BlogState} {post_id : Nat}
    {title content : String} {now : Nat} {ai : TagResult} {post : PostRec}
    (hf : st.posts.find? (fun p => p.id == post_id) = some post)
    (hpub : post.published_at = none) :
    editorSave st post_id title content "published" now ai =
      { posts := st.posts.map (fun p => if p.id == post_id then
          { post with
              title := sanitize_input title (some ["b", "i", "u", "strong", "em"])
              content := content
              status := "published"
              updated_at := now
              published_at := some now
              categories := ai.categories
              tags := ai.tags }
          else p)
        revisions := st.revisions ++ [⟨post.id, content, now⟩] } := by
  simp [editorSave, hf, hpub]

theorem editorSave_republish {st : BlogState} {post_id : Nat}
    {title content : String} {now t : Nat} {ai : TagResult} {post : PostRec}
    (hf : st.posts.find? (fun p => p.id == post_id) = some post)
    (hpub : post.published_at = some t) :
    editorSave st post_id title content "published" now ai =
      { posts := st.posts.map (fun p => if p.id == post_id then
          { post with
              title := sanitize_input title (some ["b", "i", "u", "strong", "em"])
              content := content
              status := "published"
              updated_at := now }
          else p)
        revisions := st.revisions } := by
  simp [editorSave, hf, hpub]

theorem apiPublish_republish {st : BlogState} {post_id : Nat} {now t : Nat}
    {ai : TagResult} {post : PostRec}
    (hf : st.posts.find? (fun p => p.id == post_id) = some post)
    (hpub : post.published_at = some t) :
    apiPublish st post_id now ai =
      some
        { posts := st.posts.map (fun p => if p.id == post_id then
            { post with status := "published" } else p)
          revisions := st.revisions ++ [⟨post.id, post.content, now⟩] } := by
  simp [apiPublish, hf, hpub]

/-! ## Classifier lemmas -/

theorem ite_ne_nil {c d : List String} (hd : d ≠ []) :
    (if c = [] then d else c) ≠ [] := by
  by_cases h : c = []
  · simp [h, hd]
  · simp [h]

theorem generate_basic_tags_categories_ne (content : String) :
    (generate_basic_tags content).categories ≠ [] :=
  ite_ne_nil (by simp)

theorem generate_basic_tags_tags_ne (content : String) :
    (generate_basic_tags content).tags ≠ [] :=
  ite_ne_nil (by simp)

/-! ## Claim theorems: login throttle -/

/-- C1: for every sequence of login attempts, a failed attempt against an
existing username whose post-increment counter reaches or exceeds 5 yields a
lockout response and creates a BlockedIP record for the requesting address;
below the threshold the response is invalid-credentials and no record is
created; and there is never more than one BlockedIP record per address. -/
theorem C1_threshold_blocks_ip_once :
    (∀ (st : AuthState) (attempts : List Attempt),
      UniqueBlocked st → UniqueBlocked (runAttempts st attempts)) ∧
    (∀ (st : AuthState) (username password ip : String) (now : Nat)
      (user : UserRec),
      st.blocked_ips.any (fun b => b.ip_address == ip) = false →
      st.users.find? (fun x => x.username == username) = some user →
      user.check_password password = false →
      5 ≤ user.failed_attempts + 1 →
      (login st username password ip now).1 = .lockout ∧
        (login st username password ip now).2.blocked_ips.any
          (fun b => b.ip_address == ip) = true) ∧
    (∀ (st : AuthState) (username password ip : String) (now : Nat)
      (user : UserRec),
      st.blocked_ips.any (fun b => b.ip_address == ip) = false →
      st.users.find? (fun x => x.username == username) = some user →
      user.check_password password = false →
      user.failed_attempts + 1 < 5 →
      (login st username password ip now).1 = .invalidCredentials ∧
        (login st username password ip now).2.blocked_ips = st.blocked_ips) := by
  refine ⟨runAttempts_preserves_unique, ?_, ?_⟩
  · intro st username password ip now user hb hf hc hth
    rw [login_fail_lockout hb hf hc hth]
    refine ⟨rfl, ?_⟩
    simp
  · intro st username password ip now user hb hf hc hth
    rw [login_fail_under hb hf hc hth]
    exact ⟨rfl, rfl⟩

theorem C1_threshold_blocks_ip_once_witness :
    UniqueBlocked (runAttempts ⟨[⟨"alice", "pw", 4, none⟩], [], []⟩
        [⟨"alice", "bad", "1.2.3.4", 7⟩]) ∧
      ((login ⟨[⟨"alice", "pw", 4, none⟩], [], []⟩ "alice" "bad" "1.2.3.4" 7).1 =
          .lockout ∧
        (login ⟨[⟨"alice", "pw", 4, none⟩], [], []⟩ "alice" "bad"
            "1.2.3.4" 7).2.blocked_ips.any
          (fun b => b.ip_address == "1.2.3.4") = true) ∧
      ((login ⟨[⟨"bob", "pw", 0, none⟩], [], []⟩ "bob" "bad" "1.2.3.4" 7).1 =
          .invalidCredentials ∧
        (login ⟨[⟨"bob", "pw", 0, none⟩], [], []⟩ "bob" "bad"
            "1.2.3.4" 7).2.blocked_ips = []) :=
  ⟨C1_threshold_blocks_ip_once.1 ⟨[⟨"alice", "pw", 4, none⟩], [], []⟩
     [⟨"alice", "bad", "1.2.3.4", 7⟩] (by simp [UniqueBlocked]),
   C1_threshold_blocks_ip_once.2.1 ⟨[⟨"alice", "pw", 4, none⟩], [], []⟩
     "alice" "bad" "1.2.3.4" 7 ⟨"alice", "pw", 4, none⟩
     (by decide) (by decide) (by decide) (by decide),
   C1_threshold_blocks_ip_once.2.2 ⟨[⟨"bob", "pw", 0, none⟩], [], []⟩
     "bob" "bad" "1.2.3.4" 7 ⟨"bob", "pw", 0, none⟩
     (by decide) (by decide) (by decide) (by decide)⟩

/-- C2 counterexample: an attempt from a blocked address leaves the state
completely unchanged; in particular the audit log stays empty, so no log
entry recording the attempt is written, contrary to the claim. -/
theorem C2_counterexample_no_audit_entry :
    (login ⟨[], [⟨"9.9.9.9", "too many failures"⟩], []⟩ "alice" "pw"
          "9.9.9.9" 0).1 = .blockedResponse ∧
      (login ⟨[], [⟨"9.9.9.9", "too many failures"⟩], []⟩ "alice" "pw"
          "9.9.9.9" 0).2.logs = [] := by
  decide

/-- C2 (amended): an attempt from a blocked address is rejected immediately,
before any credential comparison, and causes no state change at all: the
counter and timestamp are untouched and no audit log entry is written. -/
theorem C2_blocked_rejected_unchanged :
    ∀ (st : AuthState) (username password ip : String) (now : Nat),
      st.blocked_ips.any (fun b => b.ip_address == ip) = true →
      login st username password ip now = (.blockedResponse, st) := by
  intro st username password ip now h
  exact login_blocked h

theorem C2_blocked_rejected_unchanged_witness :
    (⟨[], [⟨"9.9.9.9", "r"⟩], []⟩ : AuthState).blocked_ips.any
        (fun b => b.ip_address == "9.9.9.9") = true ∧
      login ⟨[], [⟨"9.9.9.9", "r"⟩], []⟩ "u" "p" "9.9.9.9" 3 =
        (.blockedResponse, ⟨[], [⟨"9.9.9.9", "r"⟩], []⟩) :=
  ⟨by decide, C2_blocked_rejected_unchanged ⟨[], [⟨"9.9.9.9", "r"⟩], []⟩ "u" "p" "9.9.9.9" 3 (by decide)⟩

/-- C4 counterexample: a successful login resets the counter to 0 but leaves
the last-attempt timestamp at its old value (99) instead of updating it to
the current time (123), contrary to the claim. -/
theorem C4_counterexample_timestamp_not_updated :
    (login ⟨[⟨"bob", "secret", 3, some 99⟩], [], []⟩ "bob" "secret"
          "1.1.1.1" 123).2.users = [⟨"bob", "secret", 0, some 99⟩] ∧
      (some 99 : Option Nat) ≠ some 123 := by
  decide

/-- C4 (amended): on correct credentials from a non-blocked address the
counter resets to 0 and the success is logged, but the last-attempt timestamp
is NOT updated; and the counter is reset to zero only by a successful
authentication. -/
theorem C4_success_resets_counter_only :
    (∀ (st : AuthState) (username password ip : String) (now : Nat)
      (user : UserRec),
      st.blocked_ips.any (fun b => b.ip_address == ip) = false →
      st.users.find? (fun x => x.username == username) = some user →
      user.check_password password = true →
      (login st username password ip now).1 = .success ∧
        (login st username password ip now).2.users =
          st.users.map (fun x => if x.username == username then
            { x with failed_attempts := 0 } else x) ∧
        (login st username password ip now).2.users.map
            (fun x => x.last_attempt) =
          st.users.map (fun x => x.last_attempt) ∧
        (login st username password ip now).2.logs =
          st.logs ++ [⟨"login_success", ip⟩]) ∧
    (∀ (st : AuthState) (username password ip : String) (now : Nat)
      (w : UserRec), w ∈ st.users → w.failed_attempts ≠ 0 →
      (login st username password ip now).1 ≠ .success →
      ∃ w2 ∈ (login st username password ip now).2.users,
        w2.username = w.username ∧ w2.failed_attempts ≠ 0) := by
  constructor
  · intro st username password ip now user hb hf hc
    rw [login_success_eq hb hf hc]
    refine ⟨rfl, rfl, ?_, rfl⟩
    simp only [List.map_map]
    apply List.map_congr_left
    intro x _
    simp only [Function.comp_apply]
    split
    · rfl
    · rfl
  · intro st username password ip now w hw hwfa hres
    cases hb : st.blocked_ips.any (fun b => b.ip_address == ip) with
    | true =>
      rw [login_blocked hb]
      exact ⟨w, hw, rfl, hwfa⟩
    | false =>
      cases hf : st.users.find? (fun x => x.username == username) with
      | none =>
        rw [login_unknown hb hf]
        exact ⟨w, hw, rfl, hwfa⟩
      | some user =>
        cases hc : user.check_password password with
        | true =>
          exact absurd (by rw [login_success_eq hb hf hc]) hres
        | false =>
          have husn : user.username = username := by
            have hp := List.find?_some hf
            simpa using hp
          by_cases hth : 5 ≤ user.failed_attempts + 1
          · rw [login_fail_lockout hb hf hc hth]
            refine ⟨_, List.mem_map.mpr ⟨w, hw, rfl⟩, ?_, ?_⟩
            · by_cases hwu : w.username == username
              · have hwuu : w.username = username := by simpa using hwu
                simp [hwu, husn, hwuu]
              · simp [hwu]
            · by_cases hwu : w.username == username
              · simp [hwu]
              · simp [hwu, hwfa]
          · have hth2 : user.failed_attempts + 1 < 5 := by omega
            rw [login_fail_under hb hf hc hth2]
            refine ⟨_, List.mem_map.mpr ⟨w, hw, rfl⟩, ?_, ?_⟩
            · by_cases hwu : w.username == username
              · have hwuu : w.username = username := by simpa using hwu
                simp [hwu, husn, hwuu]
              · simp [hwu]
            · by_cases hwu : w.username == username
              · simp [hwu]
              · simp [hwu, hwfa]

theorem C4_success_resets_counter_only_witness :
    ((login ⟨[⟨"bob", "secret", 3, some 99⟩], [], []⟩ "bob" "secret"
          "1.1.1.1" 123).1 = .success ∧
      (login ⟨[⟨"bob", "secret", 3, some 99⟩], [], []⟩ "bob" "secret"
          "1.1.1.1" 123).2.users =
        ([⟨"bob", "secret", 3, some 99⟩] : List UserRec).map (fun x =>
          if x.username == "bob" then { x with failed_attempts := 0 } else x) ∧
      (login ⟨[⟨"bob", "secret", 3, some 99⟩], [], []⟩ "bob" "secret"
          "1.1.1.1" 123).2.users.map (fun x => x.last_attempt) =
        ([⟨"bob", "secret", 3, some 99⟩] : List UserRec).map
          (fun x => x.last_attempt) ∧
      (login ⟨[⟨"bob", "secret", 3, some 99⟩], [], []⟩ "bob" "secret"
          "1.1.1.1" 123).2.logs = [] ++ [⟨"login_success", "1.1.1.1"⟩]) ∧
      (∃ w2 ∈ (login ⟨[⟨"bob", "secret", 3, some 99⟩], [], []⟩ "bob" "wrong"
          "1.1.1.1" 123).2.users,
        w2.username = "bob" ∧ w2.failed_attempts ≠ 0) :=
  ⟨C4_success_resets_counter_only.1
     (⟨[⟨"bob", "secret", 3, some 99⟩], [], []⟩ : AuthState) "bob" "secret"
     "1.1.1.1" 123 ⟨"bob", "secret", 3, some 99⟩ (by decide) (by decide)
     (by decide),
   C4_success_resets_counter_only.2
     (⟨[⟨"bob", "secret", 3, some 99⟩], [], []⟩ : AuthState) "bob" "wrong"
     "1.1.1.1" 123 ⟨"bob", "secret", 3, some 99⟩ (by decide) (by decide)
     (by decide)⟩

/-- C10: a user whose failed-attempt counter is at or above the threshold
(account-level is_blocked true) still logs in successfully with correct
credentials from a non-blocked address, and the counter resets to 0: the
threshold escalation never locks the account itself. -/
theorem C10_account_never_locked :
    ∀ (st : AuthState) (username password ip : String) (now : Nat)
      (user : UserRec),
      st.blocked_ips.any (fun b => b.ip_address == ip) = false →
      st.users.find? (fun x => x.username == username) = some user →
      user.check_password password = true →
      user.is_blocked = true →
      (login st username password ip now).1 = .success ∧
        (login st username password ip now).2.users =
          st.users.map (fun x => if x.username == username then
            { x with failed_attempts := 0 } else x) := by
  intro st username password ip now user hb hf hc _
  rw [login_success_eq hb hf hc]
  exact ⟨rfl, rfl⟩

theorem C10_account_never_locked_witness :
    (⟨"carol", "pw", 7, none⟩ : UserRec).is_blocked = true ∧
      ((login ⟨[⟨"carol", "pw", 7, none⟩], [], []⟩ "carol" "pw" "2.2.2.2" 1).1 =
          .success ∧
        (login ⟨[⟨"carol", "pw", 7, none⟩], [], []⟩ "carol" "pw"
            "2.2.2.2" 1).2.users =
          ([⟨"carol", "pw", 7, none⟩] : List UserRec).map (fun x =>
            if x.username == "carol" then { x with failed_attempts := 0 }
            else x)) :=
  ⟨by decide,
   C10_account_never_locked ⟨[⟨"carol", "pw", 7, none⟩], [], []⟩ "carol" "pw" "2.2.2.2" 1 ⟨"carol", "pw", 7, none⟩
     (by decide) (by decide) (by decide) (by decide)⟩

/-! ## Claim theorems: publishing pipeline -/

/-- C3 counterexample: saving an already-published post through the editor
with status published leaves published-at unchanged but appends NO revision,
contrary to the claim that every such save appends one. -/
theorem C3_counterexample_editor_no_revision :
    (editorSave ⟨[⟨1, "T", "old", "published", [], [], some 5, 0⟩],
          [⟨1, "old", 5⟩]⟩ 1 "T" "new" "published" 9
        ⟨["General"], ["blog"]⟩).revisions = [⟨1, "old", 5⟩] ∧
      ∀ q ∈ (editorSave ⟨[⟨1, "T", "old", "published", [], [], some 5, 0⟩],
          [⟨1, "old", 5⟩]⟩ 1 "T" "new" "published" 9
        ⟨["General"], ["blog"]⟩).posts, q.published_at = some 5 := by
  decide

/-- C3 (amended): publishing a draft through the editor sets published-at
exactly once and appends one revision; a later publish through the publish
API leaves published-at unchanged and appends one revision; but an editor
save of an already-published post leaves published-at unchanged and appends
NO revision. -/
theorem C3_published_at_set_once :
    (∀ (st : BlogState) (post_id : Nat) (title content : String) (now : Nat)
      (ai : TagResult) (post : PostRec),
      st.posts.find? (fun p => p.id == post_id) = some post →
      post.published_at = none →
      (editorSave st post_id title content "published" now ai).revisions =
          st.revisions ++ [⟨post.id, content, now⟩] ∧
        ∀ q ∈ (editorSave st post_id title content "published" now ai).posts,
          q.id = post_id → q.published_at = some now) ∧
    (∀ (st : BlogState) (post_id : Nat) (title content : String) (now t : Nat)
      (ai : TagResult) (post : PostRec),
      st.posts.find? (fun p => p.id == post_id) = some post →
      post.published_at = some t →
      (editorSave st post_id title content "published" now ai).revisions =
          st.revisions ∧
        ∀ q ∈ (editorSave st post_id title content "published" now ai).posts,
          q.id = post_id → q.published_at = some t) ∧
    (∀ (st : BlogState) (post_id now t : Nat) (ai : TagResult)
      (post : PostRec),
      st.posts.find? (fun p => p.id == post_id) = some post →
      post.published_at = some t →
      ∃ st2, apiPublish st post_id now ai = some st2 ∧
        st2.revisions = st.revisions ++ [⟨post.id, post.content, now⟩] ∧
        ∀ q ∈ st2.posts, q.id = post_id → q.published_at = some t) := by
  refine ⟨?_, ?_, ?_⟩
  · intro st post_id title content now ai post hf hpub
    rw [editorSave_first_publish hf hpub]
    refine ⟨rfl, ?_⟩
    intro q hq hqid
    simp only [List.mem_map] at hq
    obtain ⟨p, hp, hpe⟩ := hq
    by_cases hid : p.id == post_id
    · rw [if_pos hid] at hpe
      rw [← hpe]
    · rw [if_neg hid] at hpe
      rw [← hpe] at hqid
      simp only [beq_iff_eq] at hid
      exact absurd hqid hid
  · intro st post_id title content now t ai post hf hpub
    rw [editorSave_republish hf hpub]
    refine ⟨rfl, ?_⟩
    intro q hq hqid
    simp only [List.mem_map] at hq
    obtain ⟨p, hp, hpe⟩ := hq
    by_cases hid : p.id == post_id
    · rw [if_pos hid] at hpe
      rw [← hpe]
      exact hpub
    · rw [if_neg hid] at hpe
      rw [← hpe] at hqid
      simp only [beq_iff_eq] at hid
      exact absurd hqid hid
  · intro st post_id now t ai post hf hpub
    rw [apiPublish_republish hf hpub]
    refine ⟨_, rfl, rfl, ?_⟩
    intro q hq hqid
    simp only [List.mem_map] at hq
    obtain ⟨p, hp, hpe⟩ := hq
    by_cases hid : p.id == post_id
    · rw [if_pos hid] at hpe
      rw [← hpe]
      exact hpub
    · rw [if_neg hid] at hpe
      rw [← hpe] at hqid
      simp only [beq_iff_eq] at hid
      exact absurd hqid hid

theorem C3_published_at_set_once_witness :
    ((editorSave ⟨[⟨1, "T", "c", "draft", [], [], none, 0⟩], []⟩ 1 "T" "new"
          "published" 9 ⟨["General"], ["blog"]⟩).revisions =
        [] ++ [⟨1, "new", 9⟩] ∧
      ∀ q ∈ (editorSave ⟨[⟨1, "T", "c", "draft", [], [], none, 0⟩], []⟩ 1 "T"
          "new" "published" 9 ⟨["General"], ["blog"]⟩).posts,
        q.id = 1 → q.published_at = some 9) ∧
      ((editorSave ⟨[⟨1, "T", "c", "published", [], [], some 5, 0⟩], []⟩ 1 "T"
          "new" "published" 9 ⟨["General"], ["blog"]⟩).revisions = [] ∧
        ∀ q ∈ (editorSave ⟨[⟨1, "T", "c", "published", [], [], some 5, 0⟩],
            []⟩ 1 "T" "new" "published" 9 ⟨["General"], ["blog"]⟩).posts,
          q.id = 1 → q.published_at = some 5) ∧
      (∃ st2, apiPublish ⟨[⟨1, "T", "c", "published", [], [], some 5, 0⟩], []⟩
            1 9 ⟨["General"], ["blog"]⟩ = some st2 ∧
        st2.revisions = [] ++ [⟨1, "c", 9⟩] ∧
        ∀ q ∈ st2.posts, q.id = 1 → q.published_at = some 5) :=
  ⟨C3_published_at_set_once.1 ⟨[⟨1, "T", "c", "draft", [], [], none, 0⟩], []⟩
     1 "T" "new" 9 ⟨["General"], ["blog"]⟩ ⟨1, "T", "c", "draft", [], [], none, 0⟩
     (by decide) rfl,
   C3_published_at_set_once.2.1
     ⟨[⟨1, "T", "c", "published", [], [], some 5, 0⟩], []⟩ 1 "T" "new" 9 5
     ⟨["General"], ["blog"]⟩ ⟨1, "T", "c", "published", [], [], some 5, 0⟩
     (by decide) rfl,
   C3_published_at_set_once.2.2
     ⟨[⟨1, "T", "c", "published", [], [], some 5, 0⟩], []⟩ 1 9 5
     ⟨["General"], ["blog"]⟩ ⟨1, "T", "c", "published", [], [], some 5, 0⟩
     (by decide) rfl⟩

/-! ## Claim theorems: sanitizer -/

/-- C5: the source replaces a falsy (empty) allow-list with the default prose
allow-list, so an empty allow-list does NOT strip markup; the repository's
own test test_sanitize_input_strips expects all markup stripped.  Evaluation
of the model at the test's input shows the input returned unchanged. -/
theorem C5_empty_allowlist_keeps_markup :
    sanitize_input "<p>Some <em>emphasized</em> text</p>" (some []) =
        "<p>Some <em>emphasized</em> text</p>" ∧
      sanitize_input "<p>Some <em>emphasized</em> text</p>" (some []) ≠
        "Some emphasized text" := by
  decide

/-- C6 counterexample: the sanitizer keeps the character data of a stripped
script element, so the result is not exactly the claimed one. -/
theorem C6_counterexample_script_text :
    sanitize_input "<script>alert(1)</script><p>ok</p>" (some ["p"]) ≠
      "<p>ok</p>" := by
  decide

/-- C6 (amended): the script element's markup is removed (no script tag
remains in the output) and the allowed p element is kept, but the script body
alert(1) is retained as inert text. -/
theorem C6_script_element_stripped_text_kept :
    sanitize_input "<script>alert(1)</script><p>ok</p>" (some ["p"]) =
        "alert(1)<p>ok</p>" ∧
      hasSub (sanitize_input "<script>alert(1)</script><p>ok</p>"
          (some ["p"])).data ("<script").data = false := by
  decide

/-! ## Claim theorems: classifier -/

/-- C7: whenever the AI classification path fails (missing credentials,
transport error, or no well-formed JSON object in the response), classify
returns the deterministic keyword fallback, which is total, and its
categories and tags lists are never empty. -/
theorem C7_classifier_fallback_total :
    ∀ (content : String) (outcome : AIOutcome)
      (parseJson : String → Option TagResult),
      aiFailed outcome parseJson = true →
      generate_tags_with_ai content outcome parseJson =
          generate_basic_tags content ∧
        (generate_basic_tags content).categories ≠ [] ∧
        (generate_basic_tags content).tags ≠ [] := by
  intro content outcome parseJson hfail
  refine ⟨?_, generate_basic_tags_categories_ne content,
    generate_basic_tags_tags_ne content⟩
  cases outcome with
  | noApiKey => rfl
  | transportError => rfl
  | response raw =>
    have hnone : parseJson raw = none := by
      simpa [aiFailed, Option.isNone_iff_eq_none] using hfail
    simp [generate_tags_with_ai, hnone]

theorem C7_classifier_fallback_total_witness :
    aiFailed .noApiKey (fun _ => none) = true ∧
      (generate_tags_with_ai "hello" .noApiKey (fun _ => none) =
          generate_basic_tags "hello" ∧
        (generate_basic_tags "hello").categories ≠ [] ∧
        (generate_basic_tags "hello").tags ≠ []) :=
  ⟨rfl, C7_classifier_fallback_total "hello" .noApiKey (fun _ => none) rfl⟩

/-! ## Claim theorems: slug assigner -/

/-- C8: slug assignment derives the base candidate from the title and returns
the first candidate of base, base-1, base-2, ... that the oracle reports
free; two titles normalising to the same base, assigned sequentially, get the
distinct slugs base and base-1. -/
theorem C8_slug_first_free :
    (∀ (f : String → Bool) (title : String) (n fuel : Nat),
      (∀ i, i < n → f (slugCandidate (slugify title) i) = true) →
      f (slugCandidate (slugify title) n) = false →
      n < fuel →
      generate_slug f title fuel = slugCandidate (slugify title) n) ∧
    (∀ (t1 t2 : String) (f1 f2 : String → Bool) (fuel : Nat),
      t1 ≠ t2 → slugify t1 = slugify t2 →
      f1 (slugify t1) = false →
      f2 (slugify t2) = true →
      f2 (slugify t2 ++ "-1") = false →
      2 ≤ fuel →
      generate_slug f1 t1 fuel = slugify t1 ∧
        generate_slug f2 t2 fuel = slugify t2 ++ "-1" ∧
        slugify t1 ≠ slugify t2 ++ "-1") := by
  constructor
  · exact generate_slug_spec
  · intro t1 t2 f1 f2 fuel hne hbase hf1 hf2t hf2o hfuel
    refine ⟨?_, ?_, ?_⟩
    · exact generate_slug_spec f1 t1 0 fuel
        (fun i hi => absurd hi (Nat.not_lt_zero i)) hf1 (by omega)
    · have h := generate_slug_spec f2 t2 1 fuel
        (fun i hi => by
          have hi0 : i = 0 := by omega
          rw [hi0]
          exact hf2t)
        (by rw [slugCandidate_one]; exact hf2o) (by omega)
      rw [h, slugCandidate_one]
    · intro heq
      rw [hbase] at heq
      have hlen := congrArg String.length heq
      rw [String.length_append] at hlen
      have h2 : ("-1" : String).length = 2 := rfl
      omega

theorem C8_slug_first_free_witness :
    ("Hello World" : String) ≠ "Hello  World" ∧
      slugify "Hello World" = slugify "Hello  World" ∧
      (generate_slug (fun _ => false) "Hello World" 5 = slugify "Hello World" ∧
        generate_slug (fun s => s == "hello-world") "Hello  World" 5 =
          slugify "Hello  World" ++ "-1" ∧
        slugify "Hello World" ≠ slugify "Hello  World" ++ "-1") :=
  ⟨by decide, by decide,
   C8_slug_first_free.2 "Hello World" "Hello  World" (fun _ => false)
     (fun s => s == "hello-world") 5 (by decide) (by decide) (by decide)
     (by decide) (by decide) (by decide)⟩

/-! ## Claim theorems: shortcode expander -/

/-- C9: the expander is idempotent (expanding already-expanded output is a
no-op, because emitted placeholders do not match the bracket grammar), and
content containing no bracket directive of the grammar for any of the four
kinds is returned unchanged. -/
theorem C9_expander_idempotent :
    (∀ content : String,
      parse_shortcodes (parse_shortcodes content) = parse_shortcodes content) ∧
    (∀ content : String, noShortcodes content.data = true →
      parse_shortcodes content = content) := by
  constructor
  · intro content
    exact parse_eq_of_noShortcodes (noShortcodes_parse content)
  · intro content h
    exact parse_eq_of_noShortcodes h

theorem C9_expander_idempotent_witness :
    noShortcodes ("Quiz night [not a shortcode]").data = true ∧
      parse_shortcodes "Quiz night [not a shortcode]" =
        "Quiz night [not a shortcode]" :=
  ⟨by decide,
   C9_expander_idempotent.2 "Quiz night [not a shortcode]" (by decide)⟩
